import Mathlib

/-!
Verification of the tracklist-builder recognition pipeline.

This file gives a shallow embedding of the result-consolidation and
similarity-based deduplication code of the repository:

* `are_tracks_similar` (src/recognizers/utils.py), including a model of
  Python difflib.SequenceMatcher.ratio over rationals;
* the per-backend `process_results` consolidation of
  src/recognizers/shazam_recognizer.py, acoustid_recognizer.py and
  executable_recognizer.py;
* the cross-backend merge `_sort_and_deduplicate_tracks` and the
  orchestration loop of `TrackRecognitionManager.identify_tracks`
  (src/recognizers/manager.py);
* the acquisition/segmentation failure handling of
  `BaseRecognizer.identify_tracks` (src/recognizers/base_recognizer.py).

Numeric values that are Python floats (confidences, similarity ratios,
thresholds) are modelled as rationals; the pipeline only compares them and
takes maxima, so the order structure is what matters.
-/

/-! ### Model of Python difflib.SequenceMatcher ratio

`are_tracks_similar` calls `difflib.SequenceMatcher(None, a, b).ratio()`.
`ratio` returns `2*M/T` where `T` is the total length of both strings and
`M` is the total size of the matching blocks found by repeatedly taking the
longest matching block (earliest in `a`, then earliest in `b`, on ties) and
recursing on the pieces to its left and to its right.  The autojunk
popularity heuristic of SequenceMatcher (active only when the second string
has at least 200 characters) is not modelled; title and artist strings
handled by this program are far shorter. -/

set_option maxRecDepth 8000 in
unseal Rat.mul Rat.add Rat.inv in
/-- Whether positions `i` of `a` and `j` of `b` are in range and hold the
same character (difflib matches positions through its `b2j` index of the
characters of `b`). -/
def charHit (a b : List Char) (i j : Nat) : Bool :=
  match a[i]?, b[j]? with
  | some x, some y => x = y
  | _, _ => false

/-- Length of the longest common suffix of `a[0..i]` and `b[0..j]` ending
exactly at positions `i` and `j` (inclusive); 0 when `a[i]` and `b[j]`
differ or are out of range.  This is the quantity difflib maintains in its
`j2len` dictionary while scanning for the longest matching block. -/
def csl (a b : List Char) : Nat → Nat → Nat
  | 0, j => if charHit a b 0 j then 1 else 0
  | i + 1, 0 => if charHit a b (i + 1) 0 then 1 else 0
  | i + 1, j + 1 => if charHit a b (i + 1) (j + 1) then csl a b i j + 1 else 0

lemma charHit_left (a b : List Char) (i j : Nat) (h : charHit a b i j = true) :
    i < a.length := by
  unfold charHit at h
  by_contra hlt
  rw [List.getElem?_eq_none (Nat.le_of_not_lt hlt)] at h
  rcases b[j]? with _ | y <;> simp at h

lemma charHit_right (a b : List Char) (i j : Nat) (h : charHit a b i j = true) :
    j < b.length := by
  unfold charHit at h
  by_contra hlt
  rw [List.getElem?_eq_none (Nat.le_of_not_lt hlt)] at h
  rcases a[i]? with _ | y <;> simp at h

lemma csl_le_left (a b : List Char) : ∀ i j, csl a b i j ≤ i + 1 := by
  intro i
  induction i with
  | zero => intro j; rw [csl]; split <;> simp
  | succ i' ih =>
    intro j
    rcases j with _ | j'
    · rw [csl]; split <;> simp
    · rw [csl]
      split
      · simpa using Nat.succ_le_succ (ih j')
      · simp

lemma csl_le_right (a b : List Char) : ∀ i j, csl a b i j ≤ j + 1 := by
  intro i
  induction i with
  | zero => intro j; rw [csl]; split <;> simp
  | succ i' ih =>
    intro j
    rcases j with _ | j'
    · rw [csl]; split <;> simp
    · rw [csl]
      split
      · simpa using Nat.succ_le_succ (ih j')
      · simp

lemma csl_ne_zero_hit (a b : List Char) : ∀ i j, csl a b i j ≠ 0 →
    charHit a b i j = true := by
  intro i j h
  rcases i with _ | i' <;> rcases j with _ | j' <;>
    · rw [csl] at h
      by_contra hc
      simp only [Bool.not_eq_true] at hc
      rw [hc] at h
      simp at h

lemma csl_ne_zero_left (a b : List Char) (i j : Nat) (h : csl a b i j ≠ 0) :
    i < a.length :=
  charHit_left a b i j (csl_ne_zero_hit a b i j h)

lemma csl_ne_zero_right (a b : List Char) (i j : Nat) (h : csl a b i j ≠ 0) :
    j < b.length :=
  charHit_right a b i j (csl_ne_zero_hit a b i j h)

/-- All (end-in-a, end-in-b) index pairs, in the lexicographic order in which
difflib `find_longest_match` examines them (`i` ascending in the outer loop,
`j` ascending in the inner loop). -/
def scanPairs (al bl : Nat) : List (Nat × Nat) :=
  (List.range al).flatMap fun i => (List.range bl).map fun j => (i, j)

/-- One step of the longest-matching-block scan: if the common suffix ending
at this index pair is strictly longer than the best block seen so far (the
strict comparison gives difflib its first-longest tie-breaking), record its
start positions and size. -/
def bestStep (a b : List Char) (best : Nat × Nat × Nat) (p : Nat × Nat) :
    Nat × Nat × Nat :=
  let k := csl a b p.1 p.2
  if k > best.2.2 then (p.1 + 1 - k, p.2 + 1 - k, k) else best

/-- The longest matching block of `a` and `b` as `(besti, bestj, bestsize)`,
as computed by difflib `find_longest_match` over the whole strings. -/
def bestScan (a b : List Char) : Nat × Nat × Nat :=
  (scanPairs a.length b.length).foldl (bestStep a b) (0, 0, 0)

/-- A scan result is in range: a nonzero block lies inside both strings. -/
def bestInv (a b : List Char) (t : Nat × Nat × Nat) : Prop :=
  t.2.2 ≠ 0 → t.1 + t.2.2 ≤ a.length ∧ t.2.1 + t.2.2 ≤ b.length

lemma bestStep_inv (a b : List Char) (best : Nat × Nat × Nat) (p : Nat × Nat)
    (h : bestInv a b best) : bestInv a b (bestStep a b best p) := by
  unfold bestStep
  by_cases hk : csl a b p.1 p.2 > best.2.2
  · simp only [hk, if_pos]
    intro hne
    have hkne : csl a b p.1 p.2 ≠ 0 := by
      simpa using hne
    constructor
    · have h1 : csl a b p.1 p.2 ≤ p.1 + 1 := csl_le_left a b p.1 p.2
      have h2 : p.1 < a.length := csl_ne_zero_left a b p.1 p.2 hkne
      have : p.1 + 1 - csl a b p.1 p.2 + csl a b p.1 p.2 = p.1 + 1 :=
        Nat.sub_add_cancel h1
      simpa [this] using h2
    · have h1 : csl a b p.1 p.2 ≤ p.2 + 1 := csl_le_right a b p.1 p.2
      have h2 : p.2 < b.length := csl_ne_zero_right a b p.1 p.2 hkne
      have : p.2 + 1 - csl a b p.1 p.2 + csl a b p.1 p.2 = p.2 + 1 :=
        Nat.sub_add_cancel h1
      simpa [this] using h2
  · simpa [hk] using h

lemma foldl_bestStep_inv (a b : List Char) :
    ∀ (l : List (Nat × Nat)) (init : Nat × Nat × Nat), bestInv a b init →
      bestInv a b (l.foldl (bestStep a b) init) := by
  intro l
  induction l with
  | nil => intro init h; simpa using h
  | cons p rest ih =>
    intro init h
    exact ih (bestStep a b init p) (bestStep_inv a b init p h)

lemma bestScan_inv (a b : List Char) : bestInv a b (bestScan a b) := by
  unfold bestScan
  apply foldl_bestStep_inv
  intro h
  simp at h

/-- Fueled form of the matching-block recursion of difflib
`get_matching_blocks`: take the longest matching block and recurse left and
right of it, summing block sizes.  Each recursion strictly shortens the
combined length (`bestScan_inv` with a nonzero block size), so at any call
the remaining fuel is at least the combined length of the current strings;
in particular fuel 0 is only ever reached with two empty strings, where the
scan finds no block and the true result is 0 as well. -/
def matchTotalAux : Nat → List Char → List Char → Nat
  | 0, _, _ => 0
  | fuel + 1, a, b =>
    if (bestScan a b).2.2 = 0 then 0
    else
      matchTotalAux fuel (a.take (bestScan a b).1) (b.take (bestScan a b).2.1) +
        (bestScan a b).2.2 +
        matchTotalAux fuel (a.drop ((bestScan a b).1 + (bestScan a b).2.2))
          (b.drop ((bestScan a b).2.1 + (bestScan a b).2.2))

/-- Total size of all matching blocks of `a` and `b`, as accumulated by
difflib `get_matching_blocks` for `ratio`. -/
def matchTotal (a b : List Char) : Nat :=
  matchTotalAux (a.length + b.length) a b

/-- Model of `difflib.SequenceMatcher(None, s1, s2).ratio()`:
`2*M/T` with `M` the total matched size and `T` the summed length,
`1.0` when both strings are empty. -/
def ratioOf (s1 s2 : String) : ℚ :=
  if s1.data.length + s2.data.length = 0 then 1
  else 2 * (matchTotal s1.data s2.data : ℚ) /
    ((s1.data.length : ℚ) + (s2.data.length : ℚ))

/-- Python `str.lower()` (the program only lower-cases ASCII track titles
and artist names, where `Char.toLower` agrees with Python). -/
def pyLower (s : String) : String := String.mk (s.data.map Char.toLower)

/-- The title/artist pair that `are_tracks_similar` reads out of a track
dictionary via `track.get("title", "")` / `track.get("artist", "")`. -/
structure TrackId where
  title : String
  artist : String
deriving DecidableEq

/-- Embedding of `are_tracks_similar` (src/recognizers/utils.py, lines
102-134).  The `if not track1 or not track2` guard of the source handles a
`None`/empty-dict argument, which cannot arise for the structure-typed
inputs here; empty title or artist strings are checked exactly as in the
source, then the weighted similarity `0.7*title + 0.3*artist` is compared
against the threshold (`0.85` at every call site of the repository). -/
def are_tracks_similar (track1 track2 : TrackId) (similarity_threshold : ℚ) : Bool :=
  if track1.title = "" ∨ track2.title = "" ∨ track1.artist = "" ∨ track2.artist = "" then
    false
  else
    let title_similarity := ratioOf (pyLower track1.title) (pyLower track2.title)
    let artist_similarity := ratioOf (pyLower track1.artist) (pyLower track2.artist)
    decide (title_similarity * (7 / 10) + artist_similarity * (3 / 10) ≥ similarity_threshold)

/-! ### Per-backend raw tracks and consolidation

Each recognizer's `process_results` first extracts one raw track per
recognized chunk (timestamp `i * chunk_duration` from the enumeration
index), then collapses consecutive recognitions that are similar to the
current track, then formats the surviving timestamps as strings. -/

/-- A raw per-chunk track dictionary as built inside `process_results`
(`title`, `artist`, numeric `timestamp` in seconds, `confidence`,
`recognizer`). -/
structure Track where
  title : String
  artist : String
  timestamp : Nat
  confidence : ℚ
  recognizer : String
deriving DecidableEq

/-- The fields of a track read by `are_tracks_similar`. -/
def Track.tid (t : Track) : TrackId := ⟨t.title, t.artist⟩

/-- The part of a Shazam API response used by
`ShazamRecognizer.process_results`: the `result["track"]` object with its
`title` and `subtitle` (artist).  A chunk result participates in the raw
track list iff it is non-`None` and carries a `track` object with a
`title`, which this option models. -/
structure ShazamApiTrack where
  title : String
  subtitle : String
deriving DecidableEq

/-- The dictionary produced by `AcoustIDRecognizer.process_acoustid_results`
for a recognized chunk: both branches of that function set `title` and
`artist`, and `score` is taken from the best API result (`none` models an
absent key, for which `process_results` substitutes `0.5`). -/
structure AcoustidApiResult where
  title : String
  artist : String
  score : Option ℚ
deriving DecidableEq

/-- The dictionary produced by `ExecutableRecognizer._transform_result`:
`_validate_result` guarantees `title`, `artist` and `confidence` are
present.  The remaining fields it copies (`trackId`, `mediaType`, ...) are
never read by `process_results` and are omitted. -/
structure ExecutableResult where
  title : String
  artist : String
  confidence : ℚ
deriving DecidableEq

/-- The raw-track extraction loop of `ShazamRecognizer.process_results`
(lines 123-132): `for i, result in enumerate(results)`, keeping recognized
chunks with timestamp `i * chunk_duration`, confidence `1.0` (Shazam
reports no confidence) and recognizer `"shazam"`.  `i` is the running
enumeration index. -/
def shazam_raw_go (chunk_duration : Nat) (i : Nat) :
    List (Option ShazamApiTrack) → List Track
  | [] => []
  | none :: rest => shazam_raw_go chunk_duration (i + 1) rest
  | some r :: rest =>
    ⟨r.title, r.subtitle, i * chunk_duration, 1, "shazam"⟩ ::
      shazam_raw_go chunk_duration (i + 1) rest

def shazam_raw_tracks (chunk_duration : Nat) (results : List (Option ShazamApiTrack)) :
    List Track :=
  shazam_raw_go chunk_duration 0 results

/-- The raw-track extraction loop of `AcoustIDRecognizer.process_results`
(lines 214-229): confidence is `float(result.get("score", 0.5))`. -/
def acoustid_raw_go (chunk_duration : Nat) (i : Nat) :
    List (Option AcoustidApiResult) → List Track
  | [] => []
  | none :: rest => acoustid_raw_go chunk_duration (i + 1) rest
  | some r :: rest =>
    ⟨r.title, r.artist, i * chunk_duration, r.score.getD (1 / 2), "acoustid"⟩ ::
      acoustid_raw_go chunk_duration (i + 1) rest

def acoustid_raw_tracks (chunk_duration : Nat) (results : List (Option AcoustidApiResult)) :
    List Track :=
  acoustid_raw_go chunk_duration 0 results

/-- The raw-track extraction loop of `ExecutableRecognizer.process_results`
(lines 282-292), recognizer name `"track_finder"`. -/
def executable_raw_go (chunk_duration : Nat) (i : Nat) :
    List (Option ExecutableResult) → List Track
  | [] => []
  | none :: rest => executable_raw_go chunk_duration (i + 1) rest
  | some r :: rest =>
    ⟨r.title, r.artist, i * chunk_duration, r.confidence, "track_finder"⟩ ::
      executable_raw_go chunk_duration (i + 1) rest

def executable_raw_tracks (chunk_duration : Nat) (results : List (Option ExecutableResult)) :
    List Track :=
  executable_raw_go chunk_duration 0 results

/-- The consolidation loop of `ShazamRecognizer.process_results` (lines
135-153) after the first raw track has become `current_track`: a track
similar to the current one is skipped, otherwise the current track is
flushed and the new one becomes current; at the end the current track is
appended. -/
def consolidate_noconf_go (current : Track) (out : List Track) :
    List Track → List Track
  | [] => out ++ [current]
  | track :: rest =>
    if are_tracks_similar current.tid track.tid (85 / 100) then
      consolidate_noconf_go current out rest
    else
      consolidate_noconf_go track (out ++ [current]) rest

/-- Consolidation of `ShazamRecognizer.process_results`: duplicates
consecutive to the current track are dropped (no confidence update). -/
def consolidate_noconf : List Track → List Track
  | [] => []
  | track :: rest => consolidate_noconf_go track [] rest

/-- The consolidation loop shared by `AcoustIDRecognizer.process_results`
(lines 232-253) and `ExecutableRecognizer.process_results` (lines 294-316):
like the Shazam loop, but a skipped similar track raises the current
track's confidence when its own is higher. -/
def consolidate_conf_go (current : Track) (out : List Track) :
    List Track → List Track
  | [] => out ++ [current]
  | track :: rest =>
    if are_tracks_similar current.tid track.tid (85 / 100) then
      consolidate_conf_go
        (if track.confidence > current.confidence then
          { current with confidence := track.confidence }
        else current) out rest
    else
      consolidate_conf_go track (out ++ [current]) rest

def consolidate_conf : List Track → List Track
  | [] => []
  | track :: rest => consolidate_conf_go track [] rest

/-- Python `f"{n:02d}"` for a nonnegative integer: at least two digits,
zero-padded. -/
def two_digit (n : Nat) : String :=
  if n < 10 then "0" ++ toString n else toString n

/-- The timestamp formatting found at the end of every `process_results`:
`divmod` into minutes/seconds and hours, rendered `MM:SS`, or `HH:MM:SS`
when there is a nonzero hour part. -/
def format_mmss (seconds : Nat) : String :=
  let mins := seconds / 60
  let secs := seconds % 60
  let hours := mins / 60
  let mins2 := mins % 60
  if hours > 0 then
    two_digit hours ++ ":" ++ two_digit mins2 ++ ":" ++ two_digit secs
  else
    two_digit mins2 ++ ":" ++ two_digit secs

/-- A Python timestamp value as handled by the manager: either the string
produced by the per-backend formatting or a number (the manager's
`_sort_and_deduplicate_tracks` accepts both). -/
inductive TimeVal where
  | str (s : String)
  | num (n : Int)
deriving DecidableEq

/-- A track dictionary as emitted by `process_results` and consumed by the
manager: the timestamp has been formatted (or may be numeric for tracks
that bypassed formatting). -/
structure TrackOut where
  title : String
  artist : String
  timestamp : TimeVal
  confidence : ℚ
  recognizer : String
deriving DecidableEq

/-- The fields of an output track read by `are_tracks_similar`. -/
def TrackOut.tid (t : TrackOut) : TrackId := ⟨t.title, t.artist⟩

/-- The final formatting loop of every `process_results`: replace the
numeric timestamp by its `MM:SS`/`HH:MM:SS` rendering. -/
def track_format (t : Track) : TrackOut :=
  ⟨t.title, t.artist, TimeVal.str (format_mmss t.timestamp), t.confidence, t.recognizer⟩

/-- Embedding of `ShazamRecognizer.process_results` (lines 109-166). -/
def shazam_process_results (chunk_duration : Nat)
    (results : List (Option ShazamApiTrack)) : List TrackOut :=
  (consolidate_noconf (shazam_raw_tracks chunk_duration results)).map track_format

/-- Embedding of `AcoustIDRecognizer.process_results` (lines 200-266). -/
def acoustid_process_results (chunk_duration : Nat)
    (results : List (Option AcoustidApiResult)) : List TrackOut :=
  (consolidate_conf (acoustid_raw_tracks chunk_duration results)).map track_format

/-- Embedding of `ExecutableRecognizer.process_results` (lines 268-329). -/
def executable_process_results (chunk_duration : Nat)
    (results : List (Option ExecutableResult)) : List TrackOut :=
  (consolidate_conf (executable_raw_tracks chunk_duration results)).map track_format

/-! ### Run decomposition of the consolidation loops

The spec describes consolidation as grouping the raw sequence into runs,
each represented by its first member carrying the maximum confidence of the
run.  `track_runs` is that decomposition, written from the spec's words:
a run is a maximal segment whose later members are all similar to the
run's first member (the loops above compare `current_track` — whose title
and artist stay those of the run's first member — against each new track). -/

/-- Decomposition of a raw track list into consecutive runs: each run is
its first track followed by the maximal prefix of the remainder similar to
that first track. -/
def track_runs : List Track → List (List Track)
  | [] => []
  | t :: rest =>
    (t :: rest.takeWhile fun x => are_tracks_similar t.tid x.tid (85 / 100)) ::
      track_runs (rest.dropWhile fun x => are_tracks_similar t.tid x.tid (85 / 100))
termination_by l => l.length
decreasing_by
  simpa [Nat.lt_succ_iff] using (List.dropWhile_sublist _).length_le

/-- Maximum confidence over a run, as the loops accumulate it: start from
the first member's confidence and raise it whenever a later member's is
strictly higher. -/
def run_max_conf (first : Track) (others : List Track) : ℚ :=
  others.foldl (fun c x => if x.confidence > c then x.confidence else c) first.confidence

/-- The first member of a run (runs are never empty; the default is
unreachable). -/
def run_first : List Track → Track
  | [] => ⟨"", "", 0, 0, ""⟩
  | first :: _ => first

/-- The consolidated track a run becomes under the confidence-updating
loops: the first member's identification and timestamp with the run's
maximum confidence. -/
def run_representative : List Track → Track
  | [] => ⟨"", "", 0, 0, ""⟩
  | first :: others => { first with confidence := run_max_conf first others }

/-- Consolidation as the spec words it: one representative per run. -/
def consolidate_by_runs (l : List Track) : List Track :=
  (track_runs l).map run_representative

/-- Consolidation keeping each run's first member unchanged (the Shazam
loop, which never updates confidence). -/
def consolidate_by_runs_first (l : List Track) : List Track :=
  (track_runs l).map run_first

lemma tid_update_conf (c : Track) (k : ℚ) :
    (if k > c.confidence then { c with confidence := k } else c).tid = c.tid := by
  split <;> rfl

lemma consolidate_conf_go_eq :
    ∀ (rest : List Track) (c : Track) (out : List Track),
      consolidate_conf_go c out rest = out ++ consolidate_by_runs (c :: rest) := by
  intro rest
  induction rest with
  | nil =>
    intro c out
    simp [consolidate_conf_go, consolidate_by_runs, track_runs, run_representative,
      run_max_conf]
  | cons t ts ih =>
    intro c out
    rw [consolidate_conf_go]
    by_cases hsim : are_tracks_similar c.tid t.tid (85 / 100) = true
    · rw [if_pos hsim, ih]
      have htid : (if t.confidence > c.confidence then
          { c with confidence := t.confidence } else c).tid = c.tid :=
        tid_update_conf c t.confidence
      unfold consolidate_by_runs
      rw [track_runs, track_runs]
      simp only [htid, List.takeWhile_cons, List.dropWhile_cons, hsim, if_pos]
      simp only [List.map_cons]
      congr 1
      by_cases hconf : t.confidence > c.confidence
      · simp only [if_pos hconf, run_representative, run_max_conf, List.foldl_cons,
          if_pos hconf]
      · simp only [if_neg hconf, run_representative, run_max_conf, List.foldl_cons,
          if_neg hconf]
    · rw [if_neg hsim, ih]
      unfold consolidate_by_runs
      rw [track_runs, track_runs]
      simp only [List.takeWhile_cons, List.dropWhile_cons, hsim]
      simp only [Bool.false_eq_true, if_false, List.map_cons]
      have : run_representative [c] = c := by
        simp [run_representative, run_max_conf]
      rw [this]
      conv_rhs => rw [track_runs]
      simp

lemma consolidate_conf_eq_by_runs (l : List Track) :
    consolidate_conf l = consolidate_by_runs l := by
  cases l with
  | nil => simp [consolidate_conf, consolidate_by_runs, track_runs]
  | cons t rest =>
    rw [consolidate_conf, consolidate_conf_go_eq]
    simp

lemma consolidate_noconf_go_eq :
    ∀ (rest : List Track) (c : Track) (out : List Track),
      consolidate_noconf_go c out rest = out ++ consolidate_by_runs_first (c :: rest) := by
  intro rest
  induction rest with
  | nil =>
    intro c out
    simp [consolidate_noconf_go, consolidate_by_runs_first, track_runs, run_first]
  | cons t ts ih =>
    intro c out
    rw [consolidate_noconf_go]
    by_cases hsim : are_tracks_similar c.tid t.tid (85 / 100) = true
    · rw [if_pos hsim, ih]
      unfold consolidate_by_runs_first
      rw [track_runs, track_runs]
      simp [List.takeWhile_cons, List.dropWhile_cons, hsim, run_first]
    · rw [if_neg hsim, ih]
      unfold consolidate_by_runs_first
      rw [track_runs, track_runs]
      simp only [List.takeWhile_cons, List.dropWhile_cons, hsim]
      simp only [Bool.false_eq_true, if_false, List.map_cons]
      simp only [run_first]
      conv_rhs => rw [track_runs]
      simp [run_first]

lemma consolidate_noconf_eq_first (l : List Track) :
    consolidate_noconf l = consolidate_by_runs_first l := by
  cases l with
  | nil => simp [consolidate_noconf, consolidate_by_runs_first, track_runs]
  | cons t rest =>
    rw [consolidate_noconf, consolidate_noconf_go_eq]
    simp

lemma track_runs_flatten (l : List Track) : (track_runs l).flatten = l := by
  induction l using track_runs.induct with
  | case1 => simp [track_runs]
  | case2 t rest ih =>
    rw [track_runs]
    simp only [List.flatten_cons, ih]
    simp [List.takeWhile_append_dropWhile]

lemma track_runs_ne_nil (l : List Track) : ∀ r ∈ track_runs l, r ≠ [] := by
  induction l using track_runs.induct with
  | case1 => simp [track_runs]
  | case2 t rest ih =>
    rw [track_runs]
    intro r hr
    rcases List.mem_cons.mp hr with h | h
    · simp [h]
    · exact ih r h

lemma foldl_conf_ones :
    ∀ (others : List Track), (∀ x ∈ others, x.confidence = 1) →
      others.foldl (fun c x => if x.confidence > c then x.confidence else c) 1 = 1 := by
  intro others
  induction others with
  | nil => intro _; rfl
  | cons x xs ih =>
    intro h
    have hx : x.confidence = 1 := h x (by simp)
    simp only [List.foldl_cons, hx, lt_irrefl, if_neg, gt_iff_lt, lt_self_iff_false,
      ite_false]
    exact ih fun y hy => h y (by simp [hy])

lemma run_max_conf_ones (first : Track) (others : List Track)
    (h1 : first.confidence = 1) (h : ∀ x ∈ others, x.confidence = 1) :
    run_max_conf first others = 1 := by
  unfold run_max_conf
  rw [h1]
  exact foldl_conf_ones others h

lemma by_runs_first_eq_ones (l : List Track) (h : ∀ x ∈ l, x.confidence = 1) :
    consolidate_by_runs_first l = consolidate_by_runs l := by
  unfold consolidate_by_runs consolidate_by_runs_first
  apply List.map_congr_left
  intro r hr
  have hne : r ≠ [] := track_runs_ne_nil l r hr
  have hmem : ∀ x ∈ r, x.confidence = 1 := by
    intro x hx
    apply h
    rw [← track_runs_flatten l]
    exact List.mem_flatten.mpr ⟨r, hr, hx⟩
  match r, hne with
  | first :: others, _ =>
    have hmax : run_max_conf first others = 1 :=
      run_max_conf_ones first others (hmem first (by simp))
        (fun x hx => hmem x (by simp [hx]))
    show run_first (first :: others) = run_representative (first :: others)
    simp only [run_first, run_representative, hmax]
    have : first.confidence = 1 := hmem first (by simp)
    rw [← this]

lemma shazam_raw_go_conf_one (chunk_duration : Nat) :
    ∀ (results : List (Option ShazamApiTrack)) (i : Nat) (t : Track),
      t ∈ shazam_raw_go chunk_duration i results → t.confidence = 1 := by
  intro results
  induction results with
  | nil => intro i t ht; simp [shazam_raw_go] at ht
  | cons r rest ih =>
    intro i t ht
    cases r with
    | none => exact ih (i + 1) t ht
    | some s =>
      rw [shazam_raw_go] at ht
      rcases List.mem_cons.mp ht with h | h
      · rw [h]
      · exact ih (i + 1) t h

lemma shazam_raw_go_ts_lb (chunk_duration : Nat) :
    ∀ (results : List (Option ShazamApiTrack)) (i : Nat) (t : Track),
      t ∈ shazam_raw_go chunk_duration i results → i * chunk_duration ≤ t.timestamp := by
  intro results
  induction results with
  | nil => intro i t ht; simp [shazam_raw_go] at ht
  | cons r rest ih =>
    intro i t ht
    cases r with
    | none =>
      calc i * chunk_duration ≤ (i + 1) * chunk_duration := by
            exact Nat.mul_le_mul_right _ (Nat.le_succ i)
        _ ≤ t.timestamp := ih (i + 1) t ht
    | some s =>
      rw [shazam_raw_go] at ht
      rcases List.mem_cons.mp ht with h | h
      · rw [h]
      · calc i * chunk_duration ≤ (i + 1) * chunk_duration := by
              exact Nat.mul_le_mul_right _ (Nat.le_succ i)
          _ ≤ t.timestamp := ih (i + 1) t h

lemma shazam_raw_go_pairwise (chunk_duration : Nat) (hcd : 0 < chunk_duration) :
    ∀ (results : List (Option ShazamApiTrack)) (i : Nat),
      (shazam_raw_go chunk_duration i results).Pairwise
        (fun a b => a.timestamp < b.timestamp) := by
  intro results
  induction results with
  | nil => intro i; simp [shazam_raw_go]
  | cons r rest ih =>
    intro i
    cases r with
    | none => exact ih (i + 1)
    | some s =>
      rw [shazam_raw_go]
      refine List.Pairwise.cons ?_ (ih (i + 1))
      intro t ht
      have hlb : (i + 1) * chunk_duration ≤ t.timestamp :=
        shazam_raw_go_ts_lb chunk_duration rest (i + 1) t ht
      show i * chunk_duration < t.timestamp
      have h2 : (i + 1) * chunk_duration = i * chunk_duration + chunk_duration := by
        ring
      omega

lemma acoustid_raw_go_ts_lb (chunk_duration : Nat) :
    ∀ (results : List (Option AcoustidApiResult)) (i : Nat) (t : Track),
      t ∈ acoustid_raw_go chunk_duration i results → i * chunk_duration ≤ t.timestamp := by
  intro results
  induction results with
  | nil => intro i t ht; simp [acoustid_raw_go] at ht
  | cons r rest ih =>
    intro i t ht
    cases r with
    | none =>
      calc i * chunk_duration ≤ (i + 1) * chunk_duration := by
            exact Nat.mul_le_mul_right _ (Nat.le_succ i)
        _ ≤ t.timestamp := ih (i + 1) t ht
    | some s =>
      rw [acoustid_raw_go] at ht
      rcases List.mem_cons.mp ht with h | h
      · rw [h]
      · calc i * chunk_duration ≤ (i + 1) * chunk_duration := by
              exact Nat.mul_le_mul_right _ (Nat.le_succ i)
          _ ≤ t.timestamp := ih (i + 1) t h

lemma acoustid_raw_go_pairwise (chunk_duration : Nat) (hcd : 0 < chunk_duration) :
    ∀ (results : List (Option AcoustidApiResult)) (i : Nat),
      (acoustid_raw_go chunk_duration i results).Pairwise
        (fun a b => a.timestamp < b.timestamp) := by
  intro results
  induction results with
  | nil => intro i; simp [acoustid_raw_go]
  | cons r rest ih =>
    intro i
    cases r with
    | none => exact ih (i + 1)
    | some s =>
      rw [acoustid_raw_go]
      refine List.Pairwise.cons ?_ (ih (i + 1))
      intro t ht
      have hlb : (i + 1) * chunk_duration ≤ t.timestamp :=
        acoustid_raw_go_ts_lb chunk_duration rest (i + 1) t ht
      show i * chunk_duration < t.timestamp
      have h2 : (i + 1) * chunk_duration = i * chunk_duration + chunk_duration := by
        ring
      omega

lemma run_representative_timestamp (r : List Track) :
    (run_representative r).timestamp = (run_first r).timestamp := by
  cases r <;> rfl

lemma map_run_first_sublist :
    ∀ (rs : List (List Track)), (∀ r ∈ rs, r ≠ []) →
      List.Sublist (rs.map run_first) rs.flatten := by
  intro rs
  induction rs with
  | nil => intro _; simp
  | cons r rest ih =>
    intro h
    have hne : r ≠ [] := h r (by simp)
    match r, hne with
    | first :: others, _ =>
      simp only [List.map_cons, List.flatten_cons, run_first]
      show List.Sublist (first :: List.map run_first rest)
        (first :: (others ++ rest.flatten))
      refine List.Sublist.cons₂ first ?_
      exact (ih fun r hr => h r (by simp [hr])).trans (List.sublist_append_right others _)

lemma by_runs_timestamp_pairwise (l : List Track)
    (hp : l.Pairwise fun a b => a.timestamp < b.timestamp) :
    (consolidate_by_runs l).Pairwise fun a b => a.timestamp < b.timestamp := by
  have hmapeq : (consolidate_by_runs l).map Track.timestamp =
      ((track_runs l).map run_first).map Track.timestamp := by
    unfold consolidate_by_runs
    rw [List.map_map, List.map_map]
    apply List.map_congr_left
    intro r _
    exact run_representative_timestamp r
  have hsub : List.Sublist ((track_runs l).map run_first) (track_runs l).flatten :=
    map_run_first_sublist (track_runs l) (track_runs_ne_nil l)
  have hsub2 : List.Sublist (((track_runs l).map run_first).map Track.timestamp)
      (l.map Track.timestamp) := by
    have := hsub.map Track.timestamp
    rwa [track_runs_flatten l] at this
  have hmp : (l.map Track.timestamp).Pairwise (· < ·) := List.pairwise_map.mpr hp
  have hout : ((consolidate_by_runs l).map Track.timestamp).Pairwise (· < ·) := by
    rw [hmapeq]
    exact hmp.sublist hsub2
  exact List.pairwise_map.mp hout

lemma by_runs_first_timestamp_pairwise (l : List Track)
    (hp : l.Pairwise fun a b => a.timestamp < b.timestamp) :
    (consolidate_by_runs_first l).Pairwise fun a b => a.timestamp < b.timestamp := by
  have hsub : List.Sublist ((track_runs l).map run_first) (track_runs l).flatten :=
    map_run_first_sublist (track_runs l) (track_runs_ne_nil l)
  have hsub2 : List.Sublist (((track_runs l).map run_first).map Track.timestamp)
      (l.map Track.timestamp) := by
    have := hsub.map Track.timestamp
    rwa [track_runs_flatten l] at this
  have hmp : (l.map Track.timestamp).Pairwise (· < ·) := List.pairwise_map.mpr hp
  have hout : ((consolidate_by_runs_first l).map Track.timestamp).Pairwise (· < ·) :=
    hmp.sublist hsub2
  exact List.pairwise_map.mp hout

/-! ### Cross-backend merge: TrackRecognitionManager._sort_and_deduplicate_tracks

The manager first converts every track's timestamp into seconds (parsing
the `MM:SS`/`HH:MM:SS` strings produced by the backends, taking numbers as
they are, and writing the result into a transient `_timestamp_seconds`
field), sorts by it (Python `sorted` is stable), walks the sorted list
merging each candidate into the last kept entry when it is within a
30-second window and similar, and finally deletes the transient field. -/

/-- Numeric value of a digit list (most significant first). -/
def digitsVal (l : List Char) : Nat :=
  l.foldl (fun a c => a * 10 + (c.toNat - 48)) 0

/-- Python `int(s)` on the strings this pipeline feeds it: an optional sign
followed by digits.  `none` models the `ValueError` Python raises on
anything unparseable (Python also tolerates surrounding whitespace and
underscores, which never occur here). -/
def pyIntOpt (s : String) : Option Int :=
  match s.data with
  | [] => none
  | '-' :: rest =>
    if rest ≠ [] ∧ rest.all Char.isDigit then some (-(digitsVal rest : Int)) else none
  | '+' :: rest =>
    if rest ≠ [] ∧ rest.all Char.isDigit then some ((digitsVal rest : Int)) else none
  | l => if l.all Char.isDigit then some ((digitsVal l : Int)) else none

/-- Python `s.split(":")` on the underlying characters (the separator is a
single character, so the general split specializes to splitting at each
colon; the empty string yields `[""]` exactly as in Python). -/
def splitColon : List Char → List (List Char)
  | [] => [[]]
  | c :: rest =>
    match splitColon rest with
    | [] => [[]]
    | cur :: parts => if c = ':' then [] :: cur :: parts else (c :: cur) :: parts

/-- The string branch of the timestamp-to-seconds conversion (manager lines
147-156): split on `":"`; two parts are `MM:SS`, three are `HH:MM:SS`, any
other shape yields `0`. -/
def timestamp_seconds_of_str (s : String) : Option Int :=
  match (splitColon s.data).map String.mk with
  | [m, sec] => do
    let mi ← pyIntOpt m
    let si ← pyIntOpt sec
    some (mi * 60 + si)
  | [h, m, sec] => do
    let hi ← pyIntOpt h
    let mi ← pyIntOpt m
    let si ← pyIntOpt sec
    some (hi * 3600 + mi * 60 + si)
  | _ => some 0

/-- `_timestamp_seconds` for one track: strings are parsed, numbers are
taken as they are (manager lines 146-158). -/
def TimeVal.seconds : TimeVal → Option Int
  | .str s => timestamp_seconds_of_str s
  | .num n => some n

/-- A track dictionary while it carries the transient `_timestamp_seconds`
helper field. -/
structure TrackSec where
  title : String
  artist : String
  timestamp : TimeVal
  confidence : ℚ
  recognizer : String
  tsec : Int
deriving DecidableEq

/-- The fields of a transient track read by `are_tracks_similar`. -/
def TrackSec.tid (t : TrackSec) : TrackId := ⟨t.title, t.artist⟩

/-- Deleting the `_timestamp_seconds` field (manager lines 191-193). -/
def strip_sec (t : TrackSec) : TrackOut :=
  ⟨t.title, t.artist, t.timestamp, t.confidence, t.recognizer⟩

/-- Adding the `_timestamp_seconds` field; `none` models the `ValueError`
escaping the conversion loop. -/
def attach_seconds (t : TrackOut) : Option TrackSec :=
  (TimeVal.seconds t.timestamp).map fun n =>
    ⟨t.title, t.artist, t.timestamp, t.confidence, t.recognizer, n⟩

/-- Insertion into a list sorted by `_timestamp_seconds`, placing the new
element after every element with a key at most its own — together with
`sort_by_sec` this computes the same list as Python's stable
`sorted(tracks, key=...)` (manager line 161). -/
def insert_by_sec (x : TrackSec) : List TrackSec → List TrackSec
  | [] => [x]
  | y :: ys => if y.tsec < x.tsec then y :: insert_by_sec x ys else x :: y :: ys

def sort_by_sec : List TrackSec → List TrackSec
  | [] => []
  | x :: xs => insert_by_sec x (sort_by_sec xs)

/-- One step of the deduplication walk (manager lines 167-188): the first
track is always kept; a candidate within 30 seconds of the last kept entry
and similar to it either overwrites that entry's title, artist, confidence
and recognizer (when strictly more confident — the timestamp fields are
left untouched) or is dropped; otherwise it is appended. -/
def dedup_step (deduped : List TrackSec) (track : TrackSec) : List TrackSec :=
  if hne : deduped = [] then [track]
  else
    let last_track := deduped.getLast hne
    let time_diff := (track.tsec - last_track.tsec).natAbs
    if time_diff ≤ 30 ∧ are_tracks_similar track.tid last_track.tid (85 / 100) = true then
      if track.confidence > last_track.confidence then
        deduped.dropLast ++
          [{ last_track with
              title := track.title
              artist := track.artist
              confidence := track.confidence
              recognizer := track.recognizer }]
      else deduped
    else deduped ++ [track]

/-- The conversion loop over all tracks (manager lines 146-158), failing at
the first track whose timestamp does not parse, as the Python loop raises
there. -/
def attach_all : List TrackOut → Option (List TrackSec)
  | [] => some []
  | t :: ts => do
    let w ← attach_seconds t
    let ws ← attach_all ts
    some (w :: ws)

/-- Embedding of `TrackRecognitionManager._sort_and_deduplicate_tracks`
(manager lines 132-195).  `none` models the `ValueError` raised when a
string timestamp with two or three `":"`-separated parts fails integer
parsing; every timestamp the repository's backends emit parses. -/
def sort_and_deduplicate_tracks (tracks : List TrackOut) : Option (List TrackOut) :=
  match tracks with
  | [] => some []
  | _ => do
    let withSec ← attach_all tracks
    let sorted_tracks := sort_by_sec withSec
    let deduped_tracks := sorted_tracks.foldl dedup_step []
    some (deduped_tracks.map strip_sec)

/-! ### Orchestration

`BaseRecognizer.identify_tracks` wraps the download / split / recognize /
process pipeline in one `try` whose handler returns `[]`, and
`TrackRecognitionManager.identify_tracks` folds the selected backends,
catching every per-backend failure into the session's error list. -/

/-- Embedding of `BaseRecognizer.identify_tracks` (base_recognizer.py lines
103-142).  The collaborators are passed as values: `download` and `split`
either yield their results or fail (an exception reaching the handler),
`recognize` is the per-chunk recognition (its own failures are already
caught inside each recognizer and become `none`), `process` is the
backend's `process_results`.  Any download or split failure makes the
whole function return the empty tracklist. -/
def identify_tracks_base {β : Type} (download : Except String (String × String))
    (split : Except String (List String × Nat)) (recognize : String → Option β)
    (process : List (Option β) → List TrackOut) : List TrackOut :=
  match download with
  | .error _ => []
  | .ok _ =>
    match split with
    | .error _ => []
    | .ok (chunks, _) => process (chunks.map recognize)

/-- What one configured backend contributes to a manager run:
the factory returned `None` (`constructFail`), an exception escaped the
construction or the run (`crash`), or the run returned a tracklist. -/
inductive BackendOutcome where
  | constructFail
  | crash (msg : String)
  | ok (tracks : List TrackOut)
deriving DecidableEq

/-- The session dictionary built by `TrackRecognitionManager.identify_tracks`
(manager lines 116-125); the uuid and wall-clock fields are opaque and
omitted. -/
structure RecognitionSession where
  url : String
  recognizers_used : List String
  individual_results : List (String × List TrackOut)
  combined_results : List TrackOut
  errors : List String
  total_tracks : Nat
deriving DecidableEq

/-- The per-backend loop of `TrackRecognitionManager.identify_tracks`
(manager lines 77-110), returning the accumulated
`(all_results, combined_results, errors)`: a failed construction or a
crash appends a message to `errors` and contributes no tracks, a
successful run contributes its tracks to both `all_results` and the
combined list, and later backends always still run. -/
def run_backends : List (String × BackendOutcome) →
    List (String × List TrackOut) × List TrackOut × List String
  | [] => ([], [], [])
  | (nm, oc) :: rest =>
    let acc := run_backends rest
    match oc with
    | .constructFail =>
      (acc.1, acc.2.1, ("No se pudo crear el reconocedor " ++ nm) :: acc.2.2)
    | .crash m =>
      (acc.1, acc.2.1, ("Error en el reconocedor " ++ nm ++ ": " ++ m) :: acc.2.2)
    | .ok ts => ((nm, ts) :: acc.1, ts ++ acc.2.1, acc.2.2)

/-- Embedding of `TrackRecognitionManager.identify_tracks` (manager lines
43-130) with the per-backend outcomes abstracted: run every requested
backend, merge the combined results, and assemble the session record.
`none` models the one unguarded step, `_sort_and_deduplicate_tracks`
raising on an unparseable string timestamp. -/
def manager_identify_tracks (url : String)
    (backends : List (String × BackendOutcome)) : Option RecognitionSession :=
  let acc := run_backends backends
  (sort_and_deduplicate_tracks acc.2.1).map fun final =>
    { url := url
      recognizers_used := backends.map Prod.fst
      individual_results := acc.1
      combined_results := final
      errors := acc.2.2
      total_tracks := final.length }

/-- The error messages the loop records, one per failed backend, in
backend order. -/
def backend_error_messages (backends : List (String × BackendOutcome)) : List String :=
  backends.filterMap fun p =>
    match p.2 with
    | .constructFail => some ("No se pudo crear el reconocedor " ++ p.1)
    | .crash m => some ("Error en el reconocedor " ++ p.1 ++ ": " ++ m)
    | .ok _ => none

/-- The per-backend results of the successful backends, in backend order. -/
def backend_success_results (backends : List (String × BackendOutcome)) :
    List (String × List TrackOut) :=
  backends.filterMap fun p =>
    match p.2 with
    | .ok ts => some (p.1, ts)
    | _ => none

/-- All successful backends' tracks, flattened in backend order. -/
def backend_success_tracks (backends : List (String × BackendOutcome)) : List TrackOut :=
  (backends.filterMap fun p =>
    match p.2 with
    | .ok ts => some ts
    | _ => none).flatten

/-! ### Ordering facts about the merge -/

/-- A transient track's `_timestamp_seconds` field agrees with its
timestamp. -/
def sec_consistent (t : TrackSec) : Prop :=
  TimeVal.seconds t.timestamp = some t.tsec

lemma attach_seconds_consistent (t : TrackOut) (w : TrackSec)
    (h : attach_seconds t = some w) : sec_consistent w := by
  unfold attach_seconds at h
  rcases Option.map_eq_some'.mp h with ⟨n, hn, hw⟩
  rw [← hw]
  unfold sec_consistent
  simpa using hn

lemma attach_all_consistent :
    ∀ (l : List TrackOut) (ws : List TrackSec), attach_all l = some ws →
      ∀ w ∈ ws, sec_consistent w := by
  intro l
  induction l with
  | nil =>
    intro ws h w hw
    simp only [attach_all] at h
    rw [← Option.some_inj.mp h] at hw
    simp at hw
  | cons t ts ih =>
    intro ws h w hw
    simp only [attach_all] at h
    rcases Option.bind_eq_some.mp h with ⟨w0, ha, h2⟩
    rcases Option.bind_eq_some.mp h2 with ⟨ws0, hr, h3⟩
    rw [← Option.some_inj.mp h3] at hw
    rcases List.mem_cons.mp hw with h1 | h1
    · rw [h1]; exact attach_seconds_consistent t w0 ha
    · exact ih ws0 hr w h1

lemma attach_all_isSome :
    ∀ (l : List TrackOut), (∀ t ∈ l, (TimeVal.seconds t.timestamp).isSome) →
      ∃ ws, attach_all l = some ws := by
  intro l
  induction l with
  | nil => intro _; exact ⟨[], rfl⟩
  | cons t ts ih =>
    intro h
    have ht : (TimeVal.seconds t.timestamp).isSome := h t (by simp)
    cases hs : TimeVal.seconds t.timestamp with
    | none => rw [hs] at ht; simp at ht
    | some n =>
      obtain ⟨ws, hws⟩ := ih fun x hx => h x (by simp [hx])
      refine ⟨⟨t.title, t.artist, t.timestamp, t.confidence, t.recognizer, n⟩ :: ws, ?_⟩
      simp only [attach_all, attach_seconds, hs, Option.map_some, hws]
      rfl

lemma mem_insert_by_sec (x z : TrackSec) :
    ∀ l, z ∈ insert_by_sec x l → z = x ∨ z ∈ l := by
  intro l
  induction l with
  | nil =>
    intro h
    rw [insert_by_sec] at h
    exact Or.inl (List.mem_singleton.mp h)
  | cons y ys ih =>
    intro h
    rw [insert_by_sec] at h
    by_cases hc : y.tsec < x.tsec
    · rw [if_pos hc] at h
      rcases List.mem_cons.mp h with h1 | h1
      · exact Or.inr (by simp [h1])
      · rcases ih h1 with h2 | h2
        · exact Or.inl h2
        · exact Or.inr (by simp [h2])
    · rw [if_neg hc] at h
      rcases List.mem_cons.mp h with h1 | h1
      · exact Or.inl h1
      · exact Or.inr h1

lemma mem_sort_by_sec (z : TrackSec) :
    ∀ l, z ∈ sort_by_sec l → z ∈ l := by
  intro l
  induction l with
  | nil => intro h; simp [sort_by_sec] at h
  | cons x xs ih =>
    intro h
    rw [sort_by_sec] at h
    rcases mem_insert_by_sec x z (sort_by_sec xs) h with h1 | h1
    · simp [h1]
    · simp [ih h1]

lemma sorted_insert_by_sec (x : TrackSec) :
    ∀ l, (l.Pairwise fun a b => a.tsec ≤ b.tsec) →
      ((insert_by_sec x l).Pairwise fun a b => a.tsec ≤ b.tsec) := by
  intro l
  induction l with
  | nil => intro _; simp [insert_by_sec]
  | cons y ys ih =>
    intro h
    rw [insert_by_sec]
    rcases List.pairwise_cons.mp h with ⟨hy, hys⟩
    by_cases hc : y.tsec < x.tsec
    · rw [if_pos hc]
      refine List.pairwise_cons.mpr ⟨?_, ih hys⟩
      intro z hz
      rcases mem_insert_by_sec x z ys hz with h1 | h1
      · rw [h1]; exact le_of_lt hc
      · exact hy z h1
    · rw [if_neg hc]
      have hxy : x.tsec ≤ y.tsec := le_of_not_lt hc
      refine List.pairwise_cons.mpr ⟨?_, h⟩
      intro z hz
      rcases List.mem_cons.mp hz with h1 | h1
      · rw [h1]; exact hxy
      · exact le_trans hxy (hy z h1)

lemma sorted_sort_by_sec :
    ∀ l, ((sort_by_sec l).Pairwise fun a b => a.tsec ≤ b.tsec) := by
  intro l
  induction l with
  | nil => simp [sort_by_sec]
  | cons x xs ih => exact sorted_insert_by_sec x (sort_by_sec xs) ih

lemma dedup_step_tsec_sublist (acc : List TrackSec) (t : TrackSec) :
    List.Sublist ((dedup_step acc t).map TrackSec.tsec)
      (acc.map TrackSec.tsec ++ [t.tsec]) := by
  unfold dedup_step
  by_cases hne : acc = []
  · rw [dif_pos hne, hne]
    simp
  · rw [dif_neg hne]
    set last_track := acc.getLast hne with hlast
    by_cases hcond : (t.tsec - last_track.tsec).natAbs ≤ 30 ∧
        are_tracks_similar t.tid last_track.tid (85 / 100) = true
    · rw [if_pos hcond]
      by_cases hconf : t.confidence > last_track.confidence
      · rw [if_pos hconf]
        have hacc : acc.dropLast ++ [last_track] = acc :=
          List.dropLast_append_getLast hne
        have hmap : (acc.dropLast ++
            [{ last_track with
                title := t.title
                artist := t.artist
                confidence := t.confidence
                recognizer := t.recognizer }]).map TrackSec.tsec =
            acc.map TrackSec.tsec := by
          conv_rhs => rw [← hacc]
          simp [TrackSec.tsec]
        rw [hmap]
        exact List.sublist_append_left _ _
      · rw [if_neg hconf]
        exact List.sublist_append_left _ _
    · rw [if_neg hcond]
      simp

lemma foldl_dedup_tsec_sublist :
    ∀ (l : List TrackSec) (acc : List TrackSec),
      List.Sublist ((l.foldl dedup_step acc).map TrackSec.tsec)
        (acc.map TrackSec.tsec ++ l.map TrackSec.tsec) := by
  intro l
  induction l with
  | nil => intro acc; simp
  | cons t ts ih =>
    intro acc
    rw [List.foldl_cons]
    refine (ih (dedup_step acc t)).trans ?_
    have h1 := dedup_step_tsec_sublist acc t
    have h2 := h1.append_right (ts.map TrackSec.tsec)
    simpa using h2

lemma dedup_step_consistent (acc : List TrackSec) (t : TrackSec)
    (hacc : ∀ x ∈ acc, sec_consistent x) (ht : sec_consistent t) :
    ∀ x ∈ dedup_step acc t, sec_consistent x := by
  unfold dedup_step
  by_cases hne : acc = []
  · rw [dif_pos hne]
    intro x hx
    rw [List.mem_singleton.mp hx]
    exact ht
  · rw [dif_neg hne]
    set last_track := acc.getLast hne with hlast
    by_cases hcond : (t.tsec - last_track.tsec).natAbs ≤ 30 ∧
        are_tracks_similar t.tid last_track.tid (85 / 100) = true
    · rw [if_pos hcond]
      by_cases hconf : t.confidence > last_track.confidence
      · rw [if_pos hconf]
        intro x hx
        rcases List.mem_append.mp hx with h1 | h1
        · exact hacc x ((List.dropLast_sublist acc).mem h1)
        · rw [List.mem_singleton.mp h1]
          have hl : sec_consistent last_track := hacc _ (List.getLast_mem hne)
          unfold sec_consistent at hl ⊢
          simpa using hl
      · rw [if_neg hconf]
        exact hacc
    · rw [if_neg hcond]
      intro x hx
      rcases List.mem_append.mp hx with h1 | h1
      · exact hacc x h1
      · rw [List.mem_singleton.mp h1]
        exact ht

lemma foldl_dedup_consistent :
    ∀ (l : List TrackSec) (acc : List TrackSec),
      (∀ x ∈ acc, sec_consistent x) → (∀ x ∈ l, sec_consistent x) →
      ∀ x ∈ l.foldl dedup_step acc, sec_consistent x := by
  intro l
  induction l with
  | nil => intro acc hacc _; simpa using hacc
  | cons t ts ih =>
    intro acc hacc hl
    rw [List.foldl_cons]
    exact ih (dedup_step acc t)
      (dedup_step_consistent acc t hacc (hl t (by simp)))
      (fun x hx => hl x (by simp [hx]))

/-- The merged output of `_sort_and_deduplicate_tracks` is ordered by
non-decreasing timestamp seconds: the walk appends in sorted order and the
overwrites never touch a timestamp. -/
lemma sort_and_dedup_sorted (tracks out : List TrackOut)
    (h : sort_and_deduplicate_tracks tracks = some out) :
    out.Pairwise fun a b => ∃ x y : Int,
      TimeVal.seconds a.timestamp = some x ∧
      TimeVal.seconds b.timestamp = some y ∧ x ≤ y := by
  match tracks, h with
  | [], h =>
    have : out = [] := (Option.some_inj.mp h).symm
    simp [this]
  | t0 :: ts0, h =>
    rw [sort_and_deduplicate_tracks] at h
    rcases Option.bind_eq_some.mp h with ⟨ws, hws, h2⟩
    have hout : out = ((sort_by_sec ws).foldl dedup_step []).map strip_sec :=
      (Option.some_inj.mp h2).symm
    have hcons : ∀ x ∈ (sort_by_sec ws).foldl dedup_step [], sec_consistent x := by
      apply foldl_dedup_consistent (sort_by_sec ws) [] (by simp)
      intro x hx
      exact attach_all_consistent (t0 :: ts0) ws hws x (mem_sort_by_sec x ws hx)
    have hsorted : ((sort_by_sec ws).map TrackSec.tsec).Pairwise (· ≤ ·) :=
      List.pairwise_map.mpr (sorted_sort_by_sec ws)
    have hsub : List.Sublist
        (((sort_by_sec ws).foldl dedup_step []).map TrackSec.tsec)
        ((sort_by_sec ws).map TrackSec.tsec) := by
      simpa using foldl_dedup_tsec_sublist (sort_by_sec ws) []
    have hdedup : (((sort_by_sec ws).foldl dedup_step []).map TrackSec.tsec).Pairwise
        (· ≤ ·) := hsorted.sublist hsub
    have hdedup2 : ((sort_by_sec ws).foldl dedup_step []).Pairwise
        (fun u v => u.tsec ≤ v.tsec) := List.pairwise_map.mp hdedup
    rw [hout]
    rw [List.pairwise_map]
    refine hdedup2.imp_of_mem ?_
    intro u v hu hv huv
    exact ⟨u.tsec, v.tsec, hcons u hu, hcons v hv, huv⟩
    exact fun hh => List.noConfusion hh

lemma run_backends_eq (backends : List (String × BackendOutcome)) :
    run_backends backends =
      (backend_success_results backends, backend_success_tracks backends,
        backend_error_messages backends) := by
  induction backends with
  | nil => rfl
  | cons p rest ih =>
    obtain ⟨nm, oc⟩ := p
    cases oc with
    | constructFail =>
      rw [run_backends, ih]
      simp [backend_success_results, backend_success_tracks, backend_error_messages]
    | crash m =>
      rw [run_backends, ih]
      simp [backend_success_results, backend_success_tracks, backend_error_messages]
    | ok ts =>
      rw [run_backends, ih]
      simp [backend_success_results, backend_success_tracks, backend_error_messages]

lemma sort_and_dedup_isSome (tracks : List TrackOut)
    (h : ∀ t ∈ tracks, (TimeVal.seconds t.timestamp).isSome) :
    ∃ out, sort_and_deduplicate_tracks tracks = some out := by
  match tracks with
  | [] => exact ⟨[], rfl⟩
  | t0 :: ts0 =>
    obtain ⟨ws, hws⟩ := attach_all_isSome (t0 :: ts0) h
    refine ⟨((sort_by_sec ws).foldl dedup_step []).map strip_sec, ?_⟩
    rw [sort_and_deduplicate_tracks, hws]
    rfl
    exact fun hh => List.noConfusion hh

/-! ### Claim theorems -/

set_option maxRecDepth 8000 in
unseal Rat.mul Rat.add Rat.inv in
/-- C1 (counterexample): on the per-chunk sequence `[A, A, absent, absent,
absent, A, A]` the claimed result is two consolidated tracks; the code
produces one, both for the Shazam and for the AcoustID `process_results`
(gap chunks are filtered away before consolidation and never split a
run). -/
theorem c1_counterexample :
    (shazam_process_results 30
      [some ⟨"ab", "cd"⟩, some ⟨"ab", "cd"⟩, none, none, none,
        some ⟨"ab", "cd"⟩, some ⟨"ab", "cd"⟩]).length = 1 ∧
    (acoustid_process_results 60
      [some ⟨"ab", "cd", some (9 / 10)⟩, some ⟨"ab", "cd", some (9 / 10)⟩, none, none, none,
        some ⟨"ab", "cd", some (9 / 10)⟩, some ⟨"ab", "cd", some (9 / 10)⟩]).length = 1 := by
  constructor <;> decide

/-- C1 (amended): per-backend consolidation ignores recognition gaps
entirely — there is no `max_interruption_chunks` in the code.  For any
self-similar identification `A`, the sequence `[A, A, absent, absent,
absent, A, A]` consolidates to exactly one track anchored at the first
chunk, under both the Shazam and the AcoustID `process_results`. -/
theorem c1_gaps_ignored (chunk_duration : Nat) (t a : String) (q : ℚ)
    (h : are_tracks_similar ⟨t, a⟩ ⟨t, a⟩ (85 / 100) = true) :
    shazam_process_results chunk_duration
        [some ⟨t, a⟩, some ⟨t, a⟩, none, none, none, some ⟨t, a⟩, some ⟨t, a⟩] =
      [⟨t, a, TimeVal.str "00:00", 1, "shazam"⟩] ∧
    acoustid_process_results chunk_duration
        [some ⟨t, a, some q⟩, some ⟨t, a, some q⟩, none, none, none,
          some ⟨t, a, some q⟩, some ⟨t, a, some q⟩] =
      [⟨t, a, TimeVal.str "00:00", q, "acoustid"⟩] := by
  constructor
  · show (consolidate_noconf (shazam_raw_go chunk_duration 0 _)).map track_format = _
    simp only [shazam_raw_go, consolidate_noconf, consolidate_noconf_go, Track.tid, h,
      if_true, Nat.zero_mul]
    simp [track_format]
    rfl
  · show (consolidate_conf (acoustid_raw_go chunk_duration 0 _)).map track_format = _
    simp only [acoustid_raw_go, consolidate_conf, consolidate_conf_go, Track.tid, h,
      if_true, Nat.zero_mul, Option.getD_some, gt_iff_lt, lt_self_iff_false, if_false]
    simp [track_format]
    rfl

set_option maxRecDepth 8000 in
unseal Rat.mul Rat.add Rat.inv in
/-- C1 (witness for the amended theorem): concrete instance with the
identification `("ab", "cd")` and confidence `1/2`. -/
theorem c1_gaps_ignored_witness :
    shazam_process_results 30
        [some ⟨"ab", "cd"⟩, some ⟨"ab", "cd"⟩, none, none, none,
          some ⟨"ab", "cd"⟩, some ⟨"ab", "cd"⟩] =
      [⟨"ab", "cd", TimeVal.str "00:00", 1, "shazam"⟩] ∧
    acoustid_process_results 30
        [some ⟨"ab", "cd", some (1 / 2)⟩, some ⟨"ab", "cd", some (1 / 2)⟩, none, none, none,
          some ⟨"ab", "cd", some (1 / 2)⟩, some ⟨"ab", "cd", some (1 / 2)⟩] =
      [⟨"ab", "cd", TimeVal.str "00:00", 1 / 2, "acoustid"⟩] :=
  c1_gaps_ignored 30 "ab" "cd" (1 / 2) (by decide)

/-- C2 (counterexample): a run of a single 30-second chunk — span far
shorter than the claimed `min_duration_seconds = 60` — survives
consolidation in both the Shazam and the executable `process_results`. -/
theorem c2_counterexample :
    shazam_process_results 30 [some ⟨"ab", "cd"⟩] =
      [⟨"ab", "cd", TimeVal.str "00:00", 1, "shazam"⟩] ∧
    executable_process_results 30 [some ⟨"ab", "cd", 9 / 10⟩] =
      [⟨"ab", "cd", TimeVal.str "00:00", 9 / 10, "track_finder"⟩] := by
  constructor <;> rfl

/-- C2 (amended): the code has no minimum-duration filter at all — every
candidate run appears in the consolidated output, even a run spanning a
single chunk. -/
theorem c2_no_min_duration (chunk_duration : Nat) (t a : String) (q : ℚ) :
    shazam_process_results chunk_duration [some ⟨t, a⟩] =
      [⟨t, a, TimeVal.str "00:00", 1, "shazam"⟩] ∧
    executable_process_results chunk_duration [some ⟨t, a, q⟩] =
      [⟨t, a, TimeVal.str "00:00", q, "track_finder"⟩] := by
  constructor
  · show (consolidate_noconf (shazam_raw_go chunk_duration 0 _)).map track_format = _
    simp only [shazam_raw_go, consolidate_noconf, consolidate_noconf_go, Nat.zero_mul]
    simp [track_format]
    rfl
  · show (consolidate_conf (executable_raw_go chunk_duration 0 _)).map track_format = _
    simp only [executable_raw_go, consolidate_conf, consolidate_conf_go, Nat.zero_mul]
    simp [track_format]
    rfl

/-- C3: in the cross-backend merge step, a candidate within the 30-second
window of the current (last kept) entry, similar to it, and strictly more
confident overwrites that entry's title, artist, confidence and backend
while keeping its timestamp (both the display timestamp and the transient
seconds field); no new entry is appended. -/
theorem c3_merge_precedence (acc : List TrackSec) (last cand : TrackSec)
    (hw : (cand.tsec - last.tsec).natAbs ≤ 30)
    (hs : are_tracks_similar cand.tid last.tid (85 / 100) = true)
    (hc : cand.confidence > last.confidence) :
    dedup_step (acc ++ [last]) cand =
      acc ++ [{ last with
        title := cand.title
        artist := cand.artist
        confidence := cand.confidence
        recognizer := cand.recognizer }] := by
  unfold dedup_step
  rw [dif_neg (by simp : ¬(acc ++ [last] = []))]
  simp only [List.getLast_concat, List.dropLast_concat]
  rw [if_pos ⟨hw, hs⟩, if_pos hc]

set_option maxRecDepth 4000 in
unseal Rat.mul Rat.add Rat.inv in
/-- C3 (witness): a concrete candidate 10 seconds after the current entry,
identical identification, confidence 9/10 against 1/2. -/
theorem c3_merge_precedence_witness :
    dedup_step ([] ++ [(⟨"ab", "x", TimeVal.num 0, 1 / 2, "r1", 0⟩ : TrackSec)])
        ⟨"ab", "x", TimeVal.num 10, 9 / 10, "r2", 10⟩ =
      [] ++ [(⟨"ab", "x", TimeVal.num 0, 9 / 10, "r2", 0⟩ : TrackSec)] :=
  c3_merge_precedence [] ⟨"ab", "x", TimeVal.num 0, 1 / 2, "r1", 0⟩
    ⟨"ab", "x", TimeVal.num 10, 9 / 10, "r2", 10⟩ (by decide) (by decide) (by decide)

/-- C4: `are_tracks_similar` returns true exactly when both inputs carry a
nonempty title and artist and the weighted similarity
`0.7 * title_ratio + 0.3 * artist_ratio` over the lower-cased fields
reaches the threshold; empty or missing fields never compare as
similar. -/
theorem c4_similarity_iff (track1 track2 : TrackId) (thr : ℚ) :
    are_tracks_similar track1 track2 thr = true ↔
      track1.title ≠ "" ∧ track2.title ≠ "" ∧ track1.artist ≠ "" ∧ track2.artist ≠ "" ∧
        ratioOf (pyLower track1.title) (pyLower track2.title) * (7 / 10) +
          ratioOf (pyLower track1.artist) (pyLower track2.artist) * (3 / 10) ≥ thr := by
  unfold are_tracks_similar
  by_cases h1 : track1.title = "" <;> by_cases h2 : track2.title = "" <;>
    by_cases h3 : track1.artist = "" <;> by_cases h4 : track2.artist = "" <;>
    simp [h1, h2, h3, h4]

/-- Merge-stage counterexample input: two backends at 0 s and 20 s with
near-identical titles that nevertheless fall below the similarity
threshold, a higher-confidence report at 29 s similar to the 20 s entry
(and to the 0 s entry), and two unrelated tracks sharing timestamp 100 s. -/
def c5_x : TrackOut := ⟨"abcdefgx", "x", TimeVal.num 0, 1 / 2, "r1"⟩

def c5_y : TrackOut := ⟨"xbcdefgh", "x", TimeVal.num 20, 2 / 5, "r1"⟩

def c5_z : TrackOut := ⟨"abcdefgh", "x", TimeVal.num 29, 9 / 10, "r2"⟩

def c5_p : TrackOut := ⟨"ppp", "p", TimeVal.num 100, 1 / 2, "r1"⟩

def c5_q : TrackOut := ⟨"ttt", "t", TimeVal.num 100, 1 / 2, "r2"⟩

def c5_input : List TrackOut := [c5_x, c5_y, c5_z, c5_p, c5_q]

/-- The entry at 20 s after the 29 s candidate overwrote its title, artist,
confidence and backend. -/
def c5_merged : TrackOut := ⟨"abcdefgh", "x", TimeVal.num 20, 9 / 10, "r2"⟩

set_option maxRecDepth 8000 in
unseal Rat.mul Rat.add Rat.inv in
/-- C5 (counterexample): the merged tracklist for `c5_input` violates both
halves of the claimed invariant — its last two entries share timestamp
100 s (order is not strict), and its first two entries are 20 s apart and
judged similar (the overwrite at 29 s retroactively made the second entry
similar to the first). -/
theorem c5_counterexample :
    sort_and_deduplicate_tracks c5_input = some [c5_x, c5_merged, c5_p, c5_q] ∧
    TimeVal.seconds c5_p.timestamp = TimeVal.seconds c5_q.timestamp ∧
    are_tracks_similar c5_merged.tid c5_x.tid (85 / 100) = true ∧
    TimeVal.seconds c5_x.timestamp = some 0 ∧
    TimeVal.seconds c5_merged.timestamp = some 20 ∧
    ((20 : Int) - 0).natAbs ≤ 30 := by
  refine ⟨by decide, by decide, by decide, by decide, by decide, by decide⟩

/-- C5 (amended): the merged tracklist is ordered by non-decreasing (not
strictly increasing) timestamp; the adjacent-dissimilarity half of the
invariant does not hold, since equal timestamps are kept as separate
entries and a later overwrite can make an entry similar to its
predecessor. -/
theorem c5_merge_sorted (tracks out : List TrackOut)
    (h : sort_and_deduplicate_tracks tracks = some out) :
    out.Pairwise fun a b => ∃ x y : Int,
      TimeVal.seconds a.timestamp = some x ∧
      TimeVal.seconds b.timestamp = some y ∧ x ≤ y :=
  sort_and_dedup_sorted tracks out h

/-- C5 (witness for the amended theorem): a concrete two-track merge. -/
theorem c5_merge_sorted_witness :
    sort_and_deduplicate_tracks
        [⟨"aa", "bb", TimeVal.num 40, 1, "r1"⟩, ⟨"cc", "dd", TimeVal.num 0, 1, "r2"⟩] =
      some [⟨"cc", "dd", TimeVal.num 0, 1, "r2"⟩, ⟨"aa", "bb", TimeVal.num 40, 1, "r1"⟩] ∧
    ([(⟨"cc", "dd", TimeVal.num 0, 1, "r2"⟩ : TrackOut),
        ⟨"aa", "bb", TimeVal.num 40, 1, "r1"⟩].Pairwise fun a b => ∃ x y : Int,
      TimeVal.seconds a.timestamp = some x ∧
      TimeVal.seconds b.timestamp = some y ∧ x ≤ y) :=
  ⟨by decide, c5_merge_sorted
    [⟨"aa", "bb", TimeVal.num 40, 1, "r1"⟩, ⟨"cc", "dd", TimeVal.num 0, 1, "r2"⟩]
    [⟨"cc", "dd", TimeVal.num 0, 1, "r2"⟩, ⟨"aa", "bb", TimeVal.num 40, 1, "r1"⟩]
    (by decide)⟩

/-- The tracklist a backend returns when its audio download fails: the
exception is caught inside `identify_tracks` and an empty list comes
back. -/
def c6_failed_backend : List TrackOut :=
  identify_tracks_base (Except.error "download failed") (Except.ok ([], 0))
    (fun _ => (none : Option ShazamApiTrack)) (shazam_process_results 30)

/-- A session mixing the failed backend with one healthy backend. -/
def c6_backends : List (String × BackendOutcome) :=
  [("shazam", BackendOutcome.ok c6_failed_backend),
   ("acoustid", BackendOutcome.ok (acoustid_process_results 60 [some ⟨"ab", "cd", some (1 / 2)⟩]))]

set_option maxRecDepth 4000 in
unseal Rat.mul Rat.add Rat.inv in
/-- C6 (counterexample): when one backend's audio acquisition fails, the
session is not aborted and not failed: it completes with an empty error
list and a (partial) tracklist contributed by the other backend —
contradicting the claimed record-the-error / `Failed` / no-partial-result
behavior. -/
theorem c6_counterexample :
    (manager_identify_tracks "http://example.com/mix" c6_backends).map
        RecognitionSession.errors = some [] ∧
    (manager_identify_tracks "http://example.com/mix" c6_backends).map
        RecognitionSession.total_tracks = some 1 := by
  refine ⟨by decide, by decide⟩

/-- C6 (amended): a download or split failure is swallowed inside
`BaseRecognizer.identify_tracks`, which returns the empty tracklist; no
session-level error or failure state results from it (the session built on
top, as `c6_counterexample` evaluates, records no error and still carries
the other backends' tracks). -/
theorem c6_failure_swallowed :
    (∀ (β : Type) (e : String) (sp : Except String (List String × Nat))
        (rec : String → Option β) (proc : List (Option β) → List TrackOut),
      identify_tracks_base (Except.error e) sp rec proc = []) ∧
    (∀ (β : Type) (dl : Except String (String × String)) (e : String)
        (rec : String → Option β) (proc : List (Option β) → List TrackOut),
      identify_tracks_base dl (Except.error e) rec proc = []) := by
  constructor
  · intro β e sp rec proc
    rfl
  · intro β dl e rec proc
    cases dl <;> rfl

/-- C7: the orchestrator always returns a session record (it never raises
for inputs whose backend tracklists carry parseable timestamps, which all
repository backends produce): every failed backend contributes exactly one
error message and no tracks, the successful backends' results are all kept,
the combined tracklist is their merge, and all requested backends appear in
the session. -/
theorem c7_orchestrator_total (url : String)
    (backends : List (String × BackendOutcome))
    (h : ∀ t ∈ backend_success_tracks backends, (TimeVal.seconds t.timestamp).isSome) :
    ∃ s : RecognitionSession, manager_identify_tracks url backends = some s ∧
      s.errors = backend_error_messages backends ∧
      s.individual_results = backend_success_results backends ∧
      sort_and_deduplicate_tracks (backend_success_tracks backends) =
        some s.combined_results ∧
      s.total_tracks = s.combined_results.length ∧
      s.recognizers_used = backends.map Prod.fst ∧ s.url = url := by
  obtain ⟨out, hout⟩ := sort_and_dedup_isSome _ h
  refine ⟨{ url := url
            recognizers_used := backends.map Prod.fst
            individual_results := backend_success_results backends
            combined_results := out
            errors := backend_error_messages backends
            total_tracks := out.length }, ?_, rfl, rfl, by simpa using hout, rfl, rfl, rfl⟩
  unfold manager_identify_tracks
  rw [run_backends_eq]
  simp [hout]

/-- Backends for the C7 witness: one crashing, one healthy, one whose
construction fails. -/
def c7_backends : List (String × BackendOutcome) :=
  [("shazam", BackendOutcome.crash "boom"),
   ("acoustid", BackendOutcome.ok [⟨"ab", "cd", TimeVal.str "00:30", 1 / 2, "acoustid"⟩]),
   ("executable", BackendOutcome.constructFail)]

set_option maxRecDepth 4000 in
unseal Rat.mul Rat.add Rat.inv in
/-- C7 (witness): the orchestrator applied to `c7_backends`. -/
theorem c7_orchestrator_total_witness :
    (∀ t ∈ backend_success_tracks c7_backends, (TimeVal.seconds t.timestamp).isSome) ∧
    ∃ s : RecognitionSession, manager_identify_tracks "http://example.com/mix" c7_backends = some s ∧
      s.errors = backend_error_messages c7_backends ∧
      s.individual_results = backend_success_results c7_backends ∧
      sort_and_deduplicate_tracks (backend_success_tracks c7_backends) =
        some s.combined_results ∧
      s.total_tracks = s.combined_results.length ∧
      s.recognizers_used = c7_backends.map Prod.fst ∧ s.url = "http://example.com/mix" :=
  ⟨by decide, c7_orchestrator_total "http://example.com/mix" c7_backends (by decide)⟩

/-- C8: every per-backend consolidation equals the run decomposition's
representatives — each surviving track is its run's first member's
identification (title, artist, timestamp) carrying the maximum confidence
over the run's members.  The first half covers the AcoustID/executable
loop on any raw list; the second covers the Shazam loop on the raw lists
it is actually fed, where every confidence is the constant `1.0` so the
first member's confidence is the run maximum. -/
theorem c8_run_representatives :
    (∀ raw : List Track, consolidate_conf raw = consolidate_by_runs raw) ∧
    (∀ (chunk_duration : Nat) (results : List (Option ShazamApiTrack)),
      consolidate_noconf (shazam_raw_tracks chunk_duration results) =
        consolidate_by_runs (shazam_raw_tracks chunk_duration results)) := by
  constructor
  · exact consolidate_conf_eq_by_runs
  · intro chunk_duration results
    rw [consolidate_noconf_eq_first]
    exact by_runs_first_eq_ones _
      (fun t ht => shazam_raw_go_conf_one chunk_duration results 0 t ht)

/-- A Python value as it appears in an output track dictionary (string or
number). -/
inductive PyVal where
  | s (v : String)
  | q (v : ℚ)
deriving DecidableEq

/-- The key/value view of an output track dictionary: `process_results`
builds each track with exactly the keys `title`, `artist`, `timestamp`,
`confidence` and `recognizer` (shazam_recognizer.py lines 125-131 and the
corresponding loops of the other recognizers) and never adds an
`end_timestamp` key. -/
def track_out_kv (t : TrackOut) : List (String × PyVal) :=
  [("title", PyVal.s t.title), ("artist", PyVal.s t.artist),
   ("timestamp", match t.timestamp with | .str v => PyVal.s v | .num n => PyVal.q n),
   ("confidence", PyVal.q t.confidence), ("recognizer", PyVal.s t.recognizer)]

set_option maxRecDepth 8000 in
unseal Rat.mul Rat.add Rat.inv in
/-- C9 (counterexample): a three-chunk run consolidates to one span, but
the resulting track dictionary has no `end_timestamp` key at all, so no
span of the per-backend output has an end timestamp exceeding its start
timestamp. -/
theorem c9_counterexample :
    (shazam_process_results 30
      [some ⟨"ab", "cd"⟩, some ⟨"ab", "cd"⟩, some ⟨"ab", "cd"⟩]).length = 1 ∧
    ((shazam_process_results 30
      [some ⟨"ab", "cd"⟩, some ⟨"ab", "cd"⟩, some ⟨"ab", "cd"⟩]).map track_out_kv).all
        (fun kv => (kv.lookup "end_timestamp").isNone) = true := by
  refine ⟨by decide, by decide⟩

/-- C9 (amended): within one backend's consolidated output the (start)
timestamps are strictly increasing whenever the chunk duration is
positive; consolidated tracks carry no end timestamp, so the
end-exceeds-start and non-overlap conditions have no counterpart in the
code. -/
theorem c9_strictly_ordered (chunk_duration : Nat) (hcd : 0 < chunk_duration)
    (shazam_results : List (Option ShazamApiTrack))
    (acoustid_results : List (Option AcoustidApiResult)) :
    ((consolidate_noconf (shazam_raw_tracks chunk_duration shazam_results)).Pairwise
      fun a b => a.timestamp < b.timestamp) ∧
    ((consolidate_conf (acoustid_raw_tracks chunk_duration acoustid_results)).Pairwise
      fun a b => a.timestamp < b.timestamp) := by
  constructor
  · rw [consolidate_noconf_eq_first]
    exact by_runs_first_timestamp_pairwise _
      (shazam_raw_go_pairwise chunk_duration hcd shazam_results 0)
  · rw [consolidate_conf_eq_by_runs]
    exact by_runs_timestamp_pairwise _
      (acoustid_raw_go_pairwise chunk_duration hcd acoustid_results 0)

/-- C9 (witness for the amended theorem): concrete 30-second chunks with a
gap and two distinct identifications. -/
theorem c9_strictly_ordered_witness :
    0 < 30 ∧
    (((consolidate_noconf (shazam_raw_tracks 30
        [some ⟨"ab", "cd"⟩, none, some ⟨"ef", "gh"⟩])).Pairwise
      fun a b => a.timestamp < b.timestamp) ∧
    ((consolidate_conf (acoustid_raw_tracks 30
        [some ⟨"ab", "cd", some (1 / 2)⟩])).Pairwise
      fun a b => a.timestamp < b.timestamp)) :=
  ⟨by decide, c9_strictly_ordered 30 (by decide)
    [some ⟨"ab", "cd"⟩, none, some ⟨"ef", "gh"⟩] [some ⟨"ab", "cd", some (1 / 2)⟩]⟩

/-- C10: in the cross-backend merge step, a candidate within the 30-second
window of the current entry and similar to it whose confidence merely
equals (is not strictly greater than) the current entry's leaves the kept
list completely unchanged: the earlier-sorted entry wins ties. -/
theorem c10_merge_tie_keeps_current (acc : List TrackSec) (last cand : TrackSec)
    (hw : (cand.tsec - last.tsec).natAbs ≤ 30)
    (hs : are_tracks_similar cand.tid last.tid (85 / 100) = true)
    (hc : cand.confidence = last.confidence) :
    dedup_step (acc ++ [last]) cand = acc ++ [last] := by
  unfold dedup_step
  rw [dif_neg (by simp : ¬(acc ++ [last] = []))]
  simp only [List.getLast_concat, List.dropLast_concat]
  rw [if_pos ⟨hw, hs⟩, if_neg (by rw [hc]; exact lt_irrefl _)]

set_option maxRecDepth 4000 in
unseal Rat.mul Rat.add Rat.inv in
/-- C10 (witness): a concrete candidate 5 seconds after the current entry
with the same identification and equal confidence `7/10`. -/
theorem c10_merge_tie_keeps_current_witness :
    dedup_step ([] ++ [(⟨"ef", "y", TimeVal.num 60, 7 / 10, "r1", 60⟩ : TrackSec)])
        ⟨"ef", "y", TimeVal.num 65, 7 / 10, "r2", 65⟩ =
      [] ++ [(⟨"ef", "y", TimeVal.num 60, 7 / 10, "r1", 60⟩ : TrackSec)] :=
  c10_merge_tie_keeps_current [] ⟨"ef", "y", TimeVal.num 60, 7 / 10, "r1", 60⟩
    ⟨"ef", "y", TimeVal.num 65, 7 / 10, "r2", 65⟩ (by decide) (by decide) (by decide)
